import Mathlib

/-!
Shallow embedding of `add_copyright.py`, a utility that prepends a copyright
notice to source files.  Python strings are modelled as `List Char`, file
contents as such strings, and the directory tree walked by the scanner as an
inductive tree.  Fallible reads are modelled with `Except`.
-/

/-- A Python string, modelled as its list of characters. -/
abbrev Str := List Char

/-- The whitespace characters stripped by Python `str.strip()` / `str.rstrip()`. -/
def pyIsSpace (c : Char) : Bool :=
  c == ' ' || c == '\t' || c == '\n' || c == '\r' || c == '\x0b' || c == '\x0c'

/-- Python `s.lstrip()`. -/
def pyLstripWs (s : Str) : Str := s.dropWhile pyIsSpace

/-- Python `s.rstrip()`. -/
def pyRstripWs (s : Str) : Str := (s.reverse.dropWhile pyIsSpace).reverse

/-- Python `s.strip()`. -/
def pyStrip (s : Str) : Str := pyRstripWs (pyLstripWs s)

/-- Python `s.lower()` (ASCII case folding, which is all the source compares). -/
def pyLower (s : Str) : Str := s.map Char.toLower

/-- Python `s.startswith(p)`. -/
def pyStartswith : Str → Str → Bool
  | _, [] => true
  | [], _ :: _ => false
  | c :: s, d :: p => c == d && pyStartswith s p

/-- Python `sub in s`: substring containment. -/
def strContains : Str → Str → Bool
  | [], sub => pyStartswith [] sub
  | c :: t, sub => pyStartswith (c :: t) sub || strContains t sub

/-- Python `s.split(sep)` for a one-character separator: keeps empty pieces,
`"".split(sep) = [""]`. -/
def pySplitChar (sep : Char) : Str → List Str
  | [] => [[]]
  | c :: t =>
    if c = sep then [] :: pySplitChar sep t
    else
      match pySplitChar sep t with
      | [] => [[c]]
      | h :: r => (c :: h) :: r

/-- Python `sep.join(pieces)` for a one-character separator. -/
def pyJoinSep (sep : Char) : List Str → Str
  | [] => []
  | [l] => l
  | l :: ls => l ++ sep :: pyJoinSep sep ls

/-- Helper for `pyReadlines`: `acc` holds the current (reversed) partial line. -/
def pyReadlinesAux : Str → Str → List Str
  | [], acc => if acc = [] then [] else [acc.reverse]
  | c :: cs, acc =>
    if c = '\n' then (acc.reverse ++ ['\n']) :: pyReadlinesAux cs []
    else pyReadlinesAux cs (c :: acc)

/-- Python `f.readlines()`: splits into lines, each line keeping its trailing
newline; a final piece without a newline is kept, an empty one is not. -/
def pyReadlines (s : Str) : List Str := pyReadlinesAux s []

/-- Append the newline terminator to a line. -/
def addNl (l : Str) : Str := l ++ ['\n']

/-- The string holds no newline character. -/
def NoNl (l : Str) : Prop := '\n' ∉ l

instance (l : Str) : Decidable (NoNl l) := by
  unfold NoNl; infer_instance

/-- The lists of strings that `pyReadlines` can produce: every line ends with a
newline and has no interior newline, except that the final line may instead be
nonempty without a trailing newline. -/
inductive WfLines : List Str → Prop where
  | nil : WfLines []
  | last (m : Str) : NoNl m → m ≠ [] → WfLines [m]
  | cons (m : Str) (ls : List Str) : NoNl m → WfLines ls → WfLines ((m ++ ['\n']) :: ls)

/-- The `SUPPORTED_EXTENSIONS` set of the source (lines 5-8). -/
def SUPPORTED_EXTENSIONS : List Str :=
  [("py").data, ("java").data, ("js").data, ("ts").data, ("c").data, ("cpp").data,
   ("h").data, ("hpp").data, ("cs").data, ("go").data, ("rs").data,
   ("html").data, ("css").data, ("scss").data, ("sh").data, ("rb").data,
   ("php").data, ("yml").data]

/-- The `COMMENT_MAP` table of the source (lines 14-27): extension to
(start marker, end marker). -/
def COMMENT_MAP : List (Str × Str × Str) :=
  [(("c").data, ("/*").data, (" */").data),
   (("cpp").data, ("/*").data, (" */").data),
   (("h").data, ("/*").data, (" */").data),
   (("hpp").data, ("/*").data, (" */").data),
   (("java").data, ("/*").data, (" */").data),
   (("js").data, ("/*").data, (" */").data),
   (("ts").data, ("/*").data, (" */").data),
   (("cs").data, ("/*").data, (" */").data),
   (("go").data, ("/*").data, (" */").data),
   (("rs").data, ("/*").data, (" */").data),
   (("css").data, ("/*").data, (" */").data),
   (("scss").data, ("/*").data, (" */").data),
   (("php").data, ("/*").data, (" */").data),
   (("py").data, ("#").data, ("").data),
   (("sh").data, ("#").data, ("").data),
   (("rb").data, ("#").data, ("").data),
   (("yml").data, ("#").data, ("").data),
   (("html").data, ("<!--").data, (" -->").data)]

/-- The literal marker scanned for by the duplicate guard (line 68). -/
def markerStr : Str := ("Copyright (c)").data

/-- `os.path.basename` for POSIX paths: everything after the last slash. -/
def pyBasename (p : Str) : Str := (p.reverse.takeWhile (fun c => c ≠ '/')).reverse

/-- `os.path.splitext(p)[1].lstrip('.')` (source lines 43 and 131): the suffix
of the basename after its last dot, provided a non-dot character precedes that
dot, so names made only of leading dots have no extension. -/
def splitextExtension (p : Str) : Str :=
  let b := pyBasename p
  let core := b.dropWhile (fun c => c = '.')
  if core.contains '.' then (core.reverse.takeWhile (fun c => c ≠ '.')).reverse else []

/-- Source lines 42-47: the extension used for style lookup, with the literal
name `Dockerfile` mapped to the pseudo-extension `dockerfile`. -/
def effectiveExtension (file_path : Str) : Str :=
  if pyBasename file_path = ("Dockerfile").data then ("dockerfile").data
  else splitextExtension file_path

/-- Source lines 54-62: the notice lines.  A nonempty end marker selects the
block style (start marker line, " * "-prefixed body lines right-stripped,
closing line of a space plus the end marker); an empty one selects the
line-comment style (each body line prefixed with the start marker and a space,
right-stripped). -/
def noticeLines (start_marker end_marker copyright_text : Str) : List Str :=
  let copyright_lines := pySplitChar '\n' (pyStrip copyright_text)
  if end_marker.isEmpty then
    copyright_lines.map (fun line => pyRstripWs (start_marker ++ ' ' :: line))
  else
    [start_marker] ++
      copyright_lines.map (fun line => pyRstripWs ((" * ").data ++ line)) ++
      [' ' :: end_marker]

/-- Source line 63: `"\n".join(notice) + "\n"`. -/
def formattedNotice (start_marker end_marker copyright_text : Str) : Str :=
  pyJoinSep '\n' (noticeLines start_marker end_marker copyright_text) ++ ['\n']

/-- Source lines 77-78: is the first line a shebang, PHP open tag, or (for
html files) a doctype declaration. -/
def isSpecialFirst (extension line1 : Str) : Bool :=
  pyStartswith line1 (("#!").data) ||
  pyStartswith (pyStrip line1) (("<?php").data) ||
  (extension == ("html").data && pyStartswith (pyLower line1) (("<!doctype").data))

/-- Source lines 73-80: the preserved special first line (empty when none).
Lines produced by `readlines` are never empty, so testing the special
condition is equivalent to the source's later `if first_line:` truthiness. -/
def firstLinePart (extension : Str) (original_content : List Str) : Str :=
  match original_content with
  | [] => []
  | line1 :: _ => if isSpecialFirst extension line1 then line1 else []

/-- Source lines 74-80: `content_to_prepend_to`. -/
def remainderLines (extension : Str) (original_content : List Str) : List Str :=
  match original_content with
  | [] => []
  | line1 :: rest => if isSpecialFirst extension line1 then rest else line1 :: rest

/-- Source line 68: the duplicate guard over the first 20 lines. -/
def hasNoticeIn20 (original_content : List Str) : Bool :=
  (original_content.take 20).any (fun line => strContains line markerStr)

/-- Outcome of one run of the inserter on one file. -/
inductive PrependResult where
  | skipNoStyle
  | skipExisting
  | errorCaught (msg : Str)
  | written (out : Str)
deriving DecidableEq

/-- Source lines 41-95, `prepend_copyright`, with the file's content passed in
place of the file handle.  `written out` stands for rewriting the file with
`out`; the skip constructors stand for returning without writing. -/
def prepend_copyright (file_path copyright_text : Str)
    (comment_map : List (Str × Str × Str)) (content : Str) : PrependResult :=
  let extension := effectiveExtension file_path
  match comment_map.lookup extension with
  | none => .skipNoStyle
  | some (start_marker, end_marker) =>
    let original_content := pyReadlines content
    if hasNoticeIn20 original_content then .skipExisting
    else
      let first_line := firstLinePart extension original_content
      let content_to_prepend_to := remainderLines extension original_content
      .written (first_line ++ formattedNotice start_marker end_marker copyright_text ++
        (if content_to_prepend_to.isEmpty then [] else '\n' :: content_to_prepend_to.flatten))

/-- The file's content after one run of the inserter: the rewritten text when
a write happened, the unchanged content otherwise. -/
def prependFinal (file_path copyright_text content : Str) : Str :=
  match prepend_copyright file_path copyright_text COMMENT_MAP content with
  | .written out => out
  | _ => content

/-- One inserter invocation where the per-file I/O may fail: the source's
`try`/`except` catches any exception and turns it into a logged message, so a
failed read becomes the `errorCaught` value instead of propagating. -/
def prependAttempt (file_path copyright_text : Str)
    (readResult : Except Str Str) : PrependResult :=
  match readResult with
  | .error e => .errorCaught e
  | .ok content => prepend_copyright file_path copyright_text COMMENT_MAP content

/-- Source lines 171-172: the batch loop over every candidate. -/
def processAll (copyright_text : Str) (files : List (Str × Except Str Str)) :
    List PrependResult :=
  files.map (fun f => prependAttempt f.1 copyright_text f.2)

-- A directory tree: files carry their content, directories their children
-- (a forest, mutually inductive with the tree).
mutual
/-- A node of the scanned directory tree. -/
inductive FSTree where
  | file (name : Str) (content : Str)
  | dir (name : Str) (children : FSForest)
/-- The children of a directory, in filesystem enumeration order. -/
inductive FSForest where
  | nil
  | cons (t : FSTree) (rest : FSForest)
end

/-- Source lines 124-132: does a directory entry match the requested
extensions (the `Dockerfile` special case, then the extension lookup). -/
def matchingName (extensions : List Str) (filename : Str) : Bool :=
  (extensions.contains (("dockerfile").data) && filename == ("Dockerfile").data) ||
  extensions.contains (splitextExtension filename)

/-- The matching files directly inside one directory, paired with content;
paths are relative component lists. -/
def filesOf (extensions : List Str) : FSForest → List (List Str × Str)
  | .nil => []
  | .cons (FSTree.file n c) rest =>
    (if matchingName extensions n then [([n], c)] else []) ++ filesOf extensions rest
  | .cons (FSTree.dir _ _) rest => filesOf extensions rest

/-- The matching files found by descending into the subdirectories, in
`os.walk` top-down order; subdirectories whose name is excluded are pruned
(source line 122) and never descended into. -/
def dirEntriesOf (extensions excluded : List Str) : FSForest → List (List Str × Str)
  | .nil => []
  | .cons (FSTree.file _ _) rest => dirEntriesOf extensions excluded rest
  | .cons (FSTree.dir d cs) rest =>
    (if excluded.contains d then []
     else (filesOf extensions cs ++ dirEntriesOf extensions excluded cs).map
       (fun e => (d :: e.1, e.2))) ++
    dirEntriesOf extensions excluded rest

/-- Source line 117: the requested extension set parsed from the
comma-separated input. -/
def parseExtensions (extensions_str : Str) : List Str :=
  (pySplitChar ',' extensions_str).map pyStrip

/-- Source lines 97-135 with the matched files paired with their content.
`root` is what the given path resolves to: `none` when nothing exists there,
`some (FSTree.file ..)` when it is not a directory. -/
def findEntries (root : Option FSTree) (extensions_str : Str)
    (excluded_dirs : List Str) : List (List Str × Str) :=
  match root with
  | some (FSTree.dir _ children) =>
    let extensions := parseExtensions extensions_str
    filesOf extensions children ++ dirEntriesOf extensions excluded_dirs children
  | _ => []

/-- Source `find_files_by_extensions`: the list of matching paths (as
component lists relative to the root). -/
def find_files_by_extensions (root : Option FSTree) (extensions_str : Str)
    (excluded_dirs : List Str) : List (List Str) :=
  (findEntries root extensions_str excluded_dirs).map (fun e => e.1)

/-- How a whole run ends: aborted by extension validation (exit 1), aborted
because the notice file is unreadable (exit 1), or completed. -/
inductive MainOutcome where
  | exitUnsupported
  | exitCopyrightMissing
  | completed (found : Nat)
deriving DecidableEq

/-- The observable effect of a run: its outcome plus every file write it
performed (path and new content). -/
structure MainResult where
  outcome : MainOutcome
  writes : List (List Str × Str)
deriving DecidableEq

/-- `os.path.join` over relative path components. -/
def pathJoin (p : List Str) : Str := pyJoinSep '/' p

/-- Source lines 138-175, the `__main__` flow: parse the inputs, validate the
requested extensions against `SUPPORTED_EXTENSIONS` (exiting before any file
access when some extension is unsupported), read the notice file (exiting when
that fails), then scan and run the inserter on every match, recording the
writes actually performed. -/
def runMain (root : Option FSTree) (extensions_str excluded_str : Str)
    (copyrightRead : Except Str Str) : MainResult :=
  let user_extensions := parseExtensions extensions_str
  let unsupported := user_extensions.filter (fun e => !SUPPORTED_EXTENSIONS.contains e)
  if !unsupported.isEmpty then ⟨.exitUnsupported, []⟩
  else
    match copyrightRead with
    | .error _ => ⟨.exitCopyrightMissing, []⟩
    | .ok copyright_text =>
      let excluded := ((pySplitChar ',' excluded_str).map pyStrip).filter
        (fun d => !d.isEmpty)
      let entries := findEntries root extensions_str excluded
      ⟨.completed entries.length,
       entries.filterMap (fun e =>
         match prepend_copyright (pathJoin e.1) copyright_text COMMENT_MAP e.2 with
         | .written o => some (e.1, o)
         | _ => none)⟩

/-- The formatted notice as the specification describes it: with a non-empty
end marker, a start-marker line, then each notice line prefixed with `" * "`
and right-stripped, then a closing line carrying the end marker (the closing
line is a space followed by the end marker); with an empty end marker, each
notice line prefixed with the start marker plus a space and right-stripped. -/
def specFormattedNotice (start_marker end_marker copyright_text : Str) : List Str :=
  let body := pySplitChar '\n' (pyStrip copyright_text)
  if end_marker.isEmpty then
    body.map (fun line => pyRstripWs (start_marker ++ ' ' :: line))
  else
    [start_marker] ++ body.map (fun line => pyRstripWs ((" * ").data ++ line)) ++
      [' ' :: end_marker]

/-! ### Line structure of `pyReadlines` -/

theorem pyReadlinesAux_cons_ne (c : Char) (cs acc : Str) (hc : c ≠ '\n') :
    pyReadlinesAux (c :: cs) acc = pyReadlinesAux cs (c :: acc) := by
  simp [pyReadlinesAux, hc]

theorem pyReadlinesAux_cons_nl (cs acc : Str) :
    pyReadlinesAux ('\n' :: cs) acc = (acc.reverse ++ ['\n']) :: pyReadlinesAux cs [] := by
  simp [pyReadlinesAux]

theorem pyReadlinesAux_nl : ∀ (m : Str), '\n' ∉ m → ∀ (acc rest : Str),
    pyReadlinesAux (m ++ '\n' :: rest) acc =
      ((acc.reverse ++ m) ++ ['\n']) :: pyReadlinesAux rest [] := by
  intro m
  induction m with
  | nil => intro _ acc rest; simp [pyReadlinesAux_cons_nl]
  | cons c m ih =>
    intro h acc rest
    have hc : c ≠ '\n' := fun hx => h (hx ▸ List.mem_cons_self c m)
    have hm : '\n' ∉ m := fun hx => h (List.mem_cons_of_mem _ hx)
    rw [List.cons_append, pyReadlinesAux_cons_ne c _ acc hc, ih hm (c :: acc) rest]
    simp

theorem pyReadlines_cons_nl (m : Str) (h : '\n' ∉ m) (rest : Str) :
    pyReadlines ((m ++ ['\n']) ++ rest) = (m ++ ['\n']) :: pyReadlines rest := by
  have := pyReadlinesAux_nl m h [] rest
  simpa [pyReadlines] using this

theorem pyReadlinesAux_noNl : ∀ (m : Str), '\n' ∉ m → ∀ (acc : Str),
    pyReadlinesAux m acc =
      if acc.reverse ++ m = [] then [] else [acc.reverse ++ m] := by
  intro m
  induction m with
  | nil =>
    intro _ acc
    by_cases hacc : acc = []
    · subst hacc; simp [pyReadlinesAux]
    · rw [if_neg (by simp [hacc])]
      simp [pyReadlinesAux, hacc]
  | cons c m ih =>
    intro h acc
    have hc : c ≠ '\n' := fun hx => h (hx ▸ List.mem_cons_self c m)
    have hm : '\n' ∉ m := fun hx => h (List.mem_cons_of_mem _ hx)
    rw [pyReadlinesAux_cons_ne c m acc hc, ih hm (c :: acc)]
    rw [if_neg (by simp), if_neg (by simp)]
    simp

theorem pyReadlines_noNl (m : Str) (h : '\n' ∉ m) (hne : m ≠ []) :
    pyReadlines m = [m] := by
  have := pyReadlinesAux_noNl m h []
  simpa [pyReadlines, hne] using this

theorem wf_pyReadlinesAux : ∀ (s acc : Str), '\n' ∉ acc →
    WfLines (pyReadlinesAux s acc) := by
  intro s
  induction s with
  | nil =>
    intro acc h
    by_cases hacc : acc = []
    · subst hacc; exact WfLines.nil
    · simp only [pyReadlinesAux, if_neg hacc]
      exact WfLines.last _ (fun hx => h (List.mem_reverse.mp hx)) (by simp [hacc])
  | cons c cs ih =>
    intro acc h
    by_cases hc : c = '\n'
    · subst hc
      simp only [pyReadlinesAux, if_pos rfl]
      exact WfLines.cons _ _ (fun hx => h (List.mem_reverse.mp hx))
        (ih [] (List.not_mem_nil _))
    · simp only [pyReadlinesAux, if_neg hc]
      exact ih (c :: acc) (by
        intro hx
        rcases List.mem_cons.mp hx with h1 | h2
        · exact hc h1.symm
        · exact h h2)

theorem wf_pyReadlines (s : Str) : WfLines (pyReadlines s) :=
  wf_pyReadlinesAux s [] (List.not_mem_nil _)

theorem WfLines_cons_cases (l : Str) (ls : List Str) (h : WfLines (l :: ls)) :
    (('\n' ∉ l ∧ l ≠ []) ∧ ls = []) ∨
    (∃ m, '\n' ∉ m ∧ l = m ++ ['\n'] ∧ WfLines ls) := by
  cases h with
  | last m hm hne => exact Or.inl ⟨⟨hm, hne⟩, rfl⟩
  | cons m ls hm hls => exact Or.inr ⟨m, hm, rfl, hls⟩

theorem pyReadlines_flatten : ∀ (ls : List Str), WfLines ls →
    pyReadlines ls.flatten = ls := by
  intro ls h
  induction h with
  | nil => rfl
  | last m hm hne => simpa using pyReadlines_noNl m hm hne
  | cons m ls hm _ ih =>
    rw [List.flatten_cons, pyReadlines_cons_nl m hm, ih]

theorem pyReadlines_mapAddNl : ∀ (ls : List Str) (rest : Str),
    (∀ m ∈ ls, '\n' ∉ m) →
    pyReadlines ((ls.map addNl).flatten ++ rest) = ls.map addNl ++ pyReadlines rest := by
  intro ls
  induction ls with
  | nil => intro rest _; simp
  | cons m ls ih =>
    intro rest h
    have hm : '\n' ∉ m := h m (List.mem_cons_self m ls)
    simp only [List.map_cons, List.flatten_cons, addNl]
    rw [List.append_assoc, pyReadlines_cons_nl m hm, ih rest
      (fun x hx => h x (List.mem_cons_of_mem _ hx))]
    simp

theorem pyJoinSep_nl : ∀ (ls : List Str), ls ≠ [] →
    pyJoinSep '\n' ls ++ ['\n'] = (ls.map addNl).flatten := by
  intro ls
  induction ls with
  | nil => intro h; exact absurd rfl h
  | cons l ls ih =>
    intro _
    cases ls with
    | nil => simp [pyJoinSep, addNl]
    | cons l2 ls2 =>
      have hstep : pyJoinSep '\n' (l :: l2 :: ls2) = l ++ '\n' :: pyJoinSep '\n' (l2 :: ls2) := rfl
      rw [hstep]
      have := ih (by simp)
      simp only [List.map_cons, List.flatten_cons, addNl] at this ⊢
      rw [List.append_assoc]
      simp only [List.cons_append, List.nil_append] at this ⊢
      rw [← this]
      simp

/-! ### Substring and stripping lemmas -/

theorem pyStartswith_iff : ∀ (p s : Str), pyStartswith s p = true ↔ ∃ r, s = p ++ r := by
  intro p
  induction p with
  | nil =>
    intro s
    constructor
    · intro _
      exact ⟨s, by simp⟩
    · intro _
      cases s <;> rfl
  | cons d p ih =>
    intro s
    cases s with
    | nil => simp [pyStartswith]
    | cons c s =>
      simp only [pyStartswith, Bool.and_eq_true, beq_iff_eq, ih s]
      constructor
      · rintro ⟨rfl, r, rfl⟩; exact ⟨r, rfl⟩
      · rintro ⟨r, hr⟩
        rw [List.cons_append] at hr
        exact ⟨(List.cons.injEq _ _ _ _ ▸ hr).1, r, (List.cons.injEq _ _ _ _ ▸ hr).2⟩

theorem strContains_iff : ∀ (s sub : Str),
    strContains s sub = true ↔ ∃ a b, s = a ++ (sub ++ b) := by
  intro s
  induction s with
  | nil =>
    intro sub
    simp only [strContains, pyStartswith_iff]
    constructor
    · rintro ⟨r, hr⟩
      cases sub with
      | nil => exact ⟨[], [], by simp⟩
      | cons c t => simp at hr
    · rintro ⟨a, b, h⟩
      rcases List.append_eq_nil.mp h.symm with ⟨rfl, h2⟩
      rcases List.append_eq_nil.mp h2 with ⟨rfl, rfl⟩
      exact ⟨[], rfl⟩
  | cons c s ih =>
    intro sub
    simp only [strContains, Bool.or_eq_true, pyStartswith_iff, ih]
    constructor
    · rintro (⟨r, hr⟩ | ⟨a, b, hab⟩)
      · exact ⟨[], r, by simpa using hr⟩
      · exact ⟨c :: a, b, by simp [hab]⟩
    · rintro ⟨a, b, hab⟩
      cases a with
      | nil => exact Or.inl ⟨b, by simpa using hab⟩
      | cons x a =>
        rw [List.cons_append] at hab
        refine Or.inr ⟨a, b, ?_⟩
        exact (List.cons.injEq _ _ _ _ ▸ hab).2

theorem strContains_append_left (x l sub : Str) (h : strContains l sub = true) :
    strContains (x ++ l) sub = true := by
  rcases (strContains_iff l sub).mp h with ⟨a, b, rfl⟩
  exact (strContains_iff _ _).mpr ⟨x ++ a, b, by simp⟩

theorem strContains_append_right (l y sub : Str) (h : strContains l sub = true) :
    strContains (l ++ y) sub = true := by
  rcases (strContains_iff l sub).mp h with ⟨a, b, rfl⟩
  exact (strContains_iff _ _).mpr ⟨a, b ++ y, by simp⟩

theorem pyRstripWs_append (x y : Str) :
    pyRstripWs (x ++ y) = if pyRstripWs y = [] then pyRstripWs x else x ++ pyRstripWs y := by
  unfold pyRstripWs
  rw [List.reverse_append, List.dropWhile_append]
  by_cases hy : List.dropWhile pyIsSpace y.reverse = []
  · simp [hy]
  · rw [if_neg (by simpa [List.isEmpty_iff] using hy), if_neg (by simpa using hy)]
    simp

theorem pyRstripWs_marker (l : Str) (h : strContains l markerStr = true) :
    strContains (pyRstripWs l) markerStr = true := by
  rcases (strContains_iff l markerStr).mp h with ⟨a, b, rfl⟩
  have hmarker : pyRstripWs markerStr = markerStr := by decide
  rw [← List.append_assoc, pyRstripWs_append (a ++ markerStr) b]
  by_cases hb : pyRstripWs b = []
  · rw [if_pos hb, pyRstripWs_append a markerStr, hmarker]
    rw [if_neg (by decide)]
    exact (strContains_iff _ _).mpr ⟨a, [], by simp⟩
  · rw [if_neg hb]
    exact (strContains_iff _ _).mpr ⟨a, pyRstripWs b, by simp⟩

theorem NoNl_rstrip (l : Str) (h : '\n' ∉ l) : '\n' ∉ pyRstripWs l := by
  intro hx
  unfold pyRstripWs at hx
  rw [List.mem_reverse] at hx
  exact h (List.mem_reverse.mp ((List.dropWhile_sublist pyIsSpace).subset hx))

theorem pySplitChar_ne_nil (sep : Char) : ∀ (s : Str), pySplitChar sep s ≠ [] := by
  intro s
  cases s with
  | nil => simp [pySplitChar]
  | cons c t =>
    unfold pySplitChar
    by_cases hc : c = sep
    · simp [hc]
    · rw [if_neg hc]
      cases h : pySplitChar sep t <;> simp

theorem pySplitChar_not_mem (sep : Char) : ∀ (s : Str), ∀ p ∈ pySplitChar sep s, sep ∉ p := by
  intro s
  induction s with
  | nil => intro p hp; simp [pySplitChar] at hp; simp [hp]
  | cons c t ih =>
    intro p hp
    unfold pySplitChar at hp
    by_cases hc : c = sep
    · rw [if_pos hc] at hp
      rcases List.mem_cons.mp hp with rfl | h2
      · simp
      · exact ih p h2
    · rw [if_neg hc] at hp
      cases h : pySplitChar sep t with
      | nil => exact absurd h (pySplitChar_ne_nil sep t)
      | cons q r =>
        rw [h] at hp
        rcases List.mem_cons.mp hp with rfl | h2
        · intro hx
          rcases List.mem_cons.mp hx with h3 | h4
          · exact hc h3.symm
          · exact ih q (h ▸ List.mem_cons_self q r) h4
        · exact ih p (h ▸ List.mem_cons_of_mem q h2)

/-! ### Lookup, notice-line and guard lemmas -/

theorem lookup_mem {β : Type} : ∀ (l : List (Str × β)) (a : Str) (b : β),
    l.lookup a = some b → (a, b) ∈ l := by
  intro l
  induction l with
  | nil => intro a b h; simp [List.lookup] at h
  | cons hd tl ih =>
    intro a b h
    obtain ⟨k, v⟩ := hd
    rw [List.lookup] at h
    cases hbeq : (a == k) with
    | true =>
      rw [hbeq] at h
      simp only [Option.some.injEq] at h
      rw [beq_iff_eq.mp hbeq, ← h]
      exact List.mem_cons_self _ _
    | false =>
      rw [hbeq] at h
      exact List.mem_cons_of_mem _ (ih a b h)

theorem commentMap_markers : ∀ p ∈ COMMENT_MAP, '\n' ∉ p.2.1 ∧ '\n' ∉ p.2.2 := by decide

theorem commentMap_noNl (ext s e : Str) (h : COMMENT_MAP.lookup ext = some (s, e)) :
    '\n' ∉ s ∧ '\n' ∉ e :=
  commentMap_markers _ (lookup_mem COMMENT_MAP ext (s, e) h)

theorem noticeLines_ne_nil (s e ct : Str) : noticeLines s e ct ≠ [] := by
  unfold noticeLines
  by_cases he : e.isEmpty
  · rw [if_pos he]
    intro h
    exact pySplitChar_ne_nil '\n' (pyStrip ct) (List.map_eq_nil_iff.mp h)
  · rw [if_neg he]
    simp

theorem noticeLines_noNl (s e ct : Str) (hs : '\n' ∉ s) (he : '\n' ∉ e) :
    ∀ m ∈ noticeLines s e ct, '\n' ∉ m := by
  intro m hm
  unfold noticeLines at hm
  have hpieces : ∀ p ∈ pySplitChar '\n' (pyStrip ct), '\n' ∉ p :=
    pySplitChar_not_mem '\n' (pyStrip ct)
  by_cases hemp : e.isEmpty
  · rw [if_pos hemp] at hm
    rcases List.mem_map.mp hm with ⟨p, hp, rfl⟩
    apply NoNl_rstrip
    intro hx
    rcases List.mem_append.mp hx with h1 | h2
    · exact hs h1
    · rcases List.mem_cons.mp h2 with h3 | h4
      · exact absurd h3 (by decide)
      · exact hpieces p hp h4
  · rw [if_neg hemp] at hm
    rcases List.mem_append.mp hm with h1 | h2
    · rcases List.mem_append.mp h1 with h3 | h4
      · rw [List.mem_singleton.mp h3]
        exact hs
      · rcases List.mem_map.mp h4 with ⟨p, hp, rfl⟩
        apply NoNl_rstrip
        intro hx
        rcases List.mem_append.mp hx with h5 | h6
        · exact absurd h5 (by decide)
        · exact hpieces p hp h6
    · rw [List.mem_singleton.mp h2]
      intro hx
      rcases List.mem_cons.mp hx with h5 | h6
      · exact absurd h5 (by decide)
      · exact he h6

theorem take20_any (xs as bs : List Str) (x : Str) (p : Str → Bool)
    (hxs : xs = as ++ x :: bs) (hlen : as.length < 20) (hx : p x = true) :
    (xs.take 20).any p = true := by
  subst hxs
  apply List.any_eq_true.mpr
  refine ⟨x, ?_, hx⟩
  rw [List.take_append_eq_append_take, List.take_of_length_le (le_of_lt hlen)]
  apply List.mem_append_right
  have h20 : 20 - as.length = (20 - as.length - 1) + 1 := by omega
  rw [h20, List.take_succ_cons]
  exact List.mem_cons_self _ _

/-! ### Unfolding lemmas for the inserter -/

theorem prepend_noStyle (p ct c : Str)
    (h : COMMENT_MAP.lookup (effectiveExtension p) = none) :
    prepend_copyright p ct COMMENT_MAP c = PrependResult.skipNoStyle := by
  simp [prepend_copyright, h]

theorem prepend_dup (p ct c s e : Str)
    (hstyle : COMMENT_MAP.lookup (effectiveExtension p) = some (s, e))
    (hg : hasNoticeIn20 (pyReadlines c) = true) :
    prepend_copyright p ct COMMENT_MAP c = PrependResult.skipExisting := by
  simp [prepend_copyright, hstyle, hg]

theorem prepend_written (p ct c s e : Str)
    (hstyle : COMMENT_MAP.lookup (effectiveExtension p) = some (s, e))
    (hguard : hasNoticeIn20 (pyReadlines c) = false) :
    prepend_copyright p ct COMMENT_MAP c = PrependResult.written
      (firstLinePart (effectiveExtension p) (pyReadlines c) ++
       (formattedNotice s e ct ++
        (if (remainderLines (effectiveExtension p) (pyReadlines c)).isEmpty then []
         else '\n' :: (remainderLines (effectiveExtension p) (pyReadlines c)).flatten))) := by
  simp [prepend_copyright, hstyle, hguard]

theorem prependFinal_skip (p ct c : Str)
    (h : ∀ out, prepend_copyright p ct COMMENT_MAP c ≠ PrependResult.written out) :
    prependFinal p ct c = c := by
  unfold prependFinal
  cases hres : prepend_copyright p ct COMMENT_MAP c with
  | written out => exact absurd hres (h out)
  | skipNoStyle => rfl
  | skipExisting => rfl
  | errorCaught m => rfl

theorem prependFinal_written (p ct c s e : Str)
    (hstyle : COMMENT_MAP.lookup (effectiveExtension p) = some (s, e))
    (hguard : hasNoticeIn20 (pyReadlines c) = false) :
    prependFinal p ct c =
      firstLinePart (effectiveExtension p) (pyReadlines c) ++
      (formattedNotice s e ct ++
       (if (remainderLines (effectiveExtension p) (pyReadlines c)).isEmpty then []
        else '\n' :: (remainderLines (effectiveExtension p) (pyReadlines c)).flatten)) := by
  unfold prependFinal
  rw [prepend_written p ct c s e hstyle hguard]

/-! ### Shape of the rewritten file -/

theorem firstLinePart_shape (ext c : Str) :
    firstLinePart ext (pyReadlines c) = [] ∨
    (∃ m, '\n' ∉ m ∧ firstLinePart ext (pyReadlines c) = m ++ ['\n']) ∨
    ('\n' ∉ firstLinePart ext (pyReadlines c) ∧ remainderLines ext (pyReadlines c) = []) := by
  have hwf := wf_pyReadlines c
  cases hlines : pyReadlines c with
  | nil => exact Or.inl rfl
  | cons l1 rest =>
    rw [hlines] at hwf
    by_cases hsp : isSpecialFirst ext l1
    · rcases WfLines_cons_cases l1 rest hwf with ⟨⟨hnl, _⟩, hrest⟩ | ⟨m, hm, hl1, _⟩
      · refine Or.inr (Or.inr ⟨?_, ?_⟩)
        · simpa [firstLinePart, hsp] using hnl
        · simp [remainderLines, hsp, hrest]
      · subst hl1
        exact Or.inr (Or.inl ⟨m, hm, by simp [firstLinePart, hsp]⟩)
    · exact Or.inl (by simp [firstLinePart, hsp])

theorem remainder_wf (ext c : Str) : WfLines (remainderLines ext (pyReadlines c)) := by
  have hwf := wf_pyReadlines c
  cases hlines : pyReadlines c with
  | nil => exact WfLines.nil
  | cons l1 rest =>
    rw [hlines] at hwf
    by_cases hsp : isSpecialFirst ext l1
    · rcases WfLines_cons_cases l1 rest hwf with ⟨_, hrest⟩ | ⟨m, _, _, hre⟩
      · simp [remainderLines, hsp, hrest]
        exact WfLines.nil
      · simpa [remainderLines, hsp] using hre
    · simpa [remainderLines, hsp] using hwf

theorem formattedNotice_flatten (s e ct : Str) :
    formattedNotice s e ct = ((noticeLines s e ct).map addNl).flatten := by
  unfold formattedNotice
  exact pyJoinSep_nl _ (noticeLines_ne_nil s e ct)

theorem prependFinal_lines (p ct c s e : Str)
    (hstyle : COMMENT_MAP.lookup (effectiveExtension p) = some (s, e))
    (hguard : hasNoticeIn20 (pyReadlines c) = false)
    (hfl : firstLinePart (effectiveExtension p) (pyReadlines c) = [] ∨
           (∃ m, '\n' ∉ m ∧
             firstLinePart (effectiveExtension p) (pyReadlines c) = m ++ ['\n'])) :
    pyReadlines (prependFinal p ct c) =
      (if firstLinePart (effectiveExtension p) (pyReadlines c) = [] then []
       else [firstLinePart (effectiveExtension p) (pyReadlines c)]) ++
      ((noticeLines s e ct).map addNl ++
       pyReadlines
         (if (remainderLines (effectiveExtension p) (pyReadlines c)).isEmpty then []
          else '\n' :: (remainderLines (effectiveExtension p) (pyReadlines c)).flatten)) := by
  have hnn : ∀ m ∈ noticeLines s e ct, '\n' ∉ m := by
    obtain ⟨h1, h2⟩ := commentMap_noNl _ s e hstyle
    exact noticeLines_noNl s e ct h1 h2
  rw [prependFinal_written p ct c s e hstyle hguard, formattedNotice_flatten]
  rcases hfl with hfl0 | ⟨m, hm, hfleq⟩
  · rw [hfl0, if_pos rfl]
    simp only [List.nil_append]
    exact pyReadlines_mapAddNl _ _ hnn
  · rw [hfleq]
    rw [if_neg (show ¬(m ++ ['\n'] = ([] : Str)) from by simp)]
    rw [pyReadlines_cons_nl m hm, pyReadlines_mapAddNl _ _ hnn]
    simp

theorem pyReadlines_sep (ls : List Str) (h : WfLines ls) :
    pyReadlines ('\n' :: ls.flatten) = ['\n'] :: ls := by
  have hshape : ('\n' :: ls.flatten) = (([] : Str) ++ ['\n']) ++ ls.flatten := by simp
  rw [hshape, pyReadlines_cons_nl [] (by simp), pyReadlines_flatten ls h]
  simp

/-! ### The duplicate guard fires on a rewritten file -/

theorem pyReadlines_nil : pyReadlines [] = [] := rfl

theorem guard_hits (fl : Str) (A B : List Str) (l sep : Str)
    (hnn : ∀ m ∈ A ++ l :: B, '\n' ∉ m)
    (hA : A.length ≤ 18)
    (hl : strContains l markerStr = true)
    (hfl : fl = [] ∨ (∃ m, '\n' ∉ m ∧ fl = m ++ ['\n']) ∨ ('\n' ∉ fl ∧ sep = [])) :
    hasNoticeIn20 (pyReadlines (fl ++ (((A ++ l :: B).map addNl).flatten ++ sep))) = true := by
  have hmain : pyReadlines (((A ++ l :: B).map addNl).flatten ++ sep)
      = A.map addNl ++ (addNl l :: (B.map addNl ++ pyReadlines sep)) := by
    rw [pyReadlines_mapAddNl _ _ hnn]
    simp [List.map_append]
  have hxcontains : strContains (addNl l) markerStr = true := by
    unfold addNl
    exact strContains_append_right l ['\n'] markerStr hl
  unfold hasNoticeIn20
  rcases hfl with rfl | ⟨m, hm, rfl⟩ | ⟨hflnn, rfl⟩
  · rw [List.nil_append]
    exact take20_any _ (A.map addNl) _ (addNl l) _ hmain
      (by rw [List.length_map]; omega) hxcontains
  · rw [pyReadlines_cons_nl m hm, hmain]
    exact take20_any _ ((m ++ ['\n']) :: A.map addNl)
      (List.map addNl B ++ pyReadlines sep) (addNl l) _
      (by simp) (by simp; omega) hxcontains
  · simp only [List.append_nil]
    cases A with
    | nil =>
      simp only [List.nil_append]
      have hfll : '\n' ∉ fl ++ l := by
        intro hx
        rcases List.mem_append.mp hx with h1 | h2
        · exact hflnn h1
        · exact hnn l (List.mem_cons_self l B) h2
      rw [show ((l :: B).map addNl).flatten = (l ++ ['\n']) ++ (B.map addNl).flatten from by
        simp [addNl]]
      rw [← List.append_assoc fl (l ++ ['\n']) ((B.map addNl).flatten)]
      rw [← List.append_assoc fl l ['\n']]
      rw [pyReadlines_cons_nl (fl ++ l) hfll ((B.map addNl).flatten)]
      have hBlines : pyReadlines ((B.map addNl).flatten) = B.map addNl := by
        have := pyReadlines_mapAddNl B []
          (fun x hx => hnn x (List.mem_cons_of_mem l hx))
        simpa [pyReadlines_nil] using this
      rw [hBlines]
      exact take20_any _ [] (List.map addNl B) ((fl ++ l) ++ ['\n']) _ (by simp) (by simp)
        (strContains_append_right (fl ++ l) ['\n'] markerStr
          (strContains_append_left fl l markerStr hl))
    | cons a A' =>
      simp only [List.cons_append]
      have ha : '\n' ∉ a := hnn a (by simp)
      have hfla : '\n' ∉ fl ++ a := by
        intro hx
        rcases List.mem_append.mp hx with h1 | h2
        · exact hflnn h1
        · exact ha h2
      have hnn' : ∀ m ∈ A' ++ l :: B, '\n' ∉ m := by
        intro x hx
        apply hnn x
        rw [List.cons_append]
        exact List.mem_cons_of_mem a hx
      rw [show ((a :: (A' ++ l :: B)).map addNl).flatten =
            (a ++ ['\n']) ++ (((A' ++ l :: B)).map addNl).flatten from by
        simp [addNl]]
      rw [← List.append_assoc fl (a ++ ['\n']) _, ← List.append_assoc fl a ['\n']]
      rw [pyReadlines_cons_nl (fl ++ a) hfla _]
      have hrest : pyReadlines (((A' ++ l :: B)).map addNl).flatten =
          (A' ++ l :: B).map addNl := by
        have := pyReadlines_mapAddNl (A' ++ l :: B) [] hnn'
        simpa [pyReadlines_nil] using this
      rw [hrest]
      exact take20_any _ (((fl ++ a) ++ ['\n']) :: A'.map addNl) (List.map addNl B)
        (addNl l) _
        (by simp [List.map_append]) (by simp at hA ⊢; omega) hxcontains

theorem notice_decomp (s e ct : Str) (pre post : List Str) (l : Str)
    (hsplit : pySplitChar '\n' (pyStrip ct) = pre ++ l :: post)
    (hlen : pre.length < 18)
    (hl : strContains l markerStr = true) :
    ∃ A lm B, noticeLines s e ct = A ++ lm :: B ∧ A.length ≤ 18 ∧
      strContains lm markerStr = true := by
  by_cases he : e.isEmpty
  · refine ⟨pre.map (fun line => pyRstripWs (s ++ ' ' :: line)),
      pyRstripWs (s ++ ' ' :: l),
      post.map (fun line => pyRstripWs (s ++ ' ' :: line)), ?_, ?_, ?_⟩
    · simp [noticeLines, he, hsplit, List.map_append]
    · rw [List.length_map]; omega
    · exact pyRstripWs_marker _ (strContains_append_left s (' ' :: l) markerStr
        (strContains_append_left [' '] l markerStr hl))
  · refine ⟨s :: pre.map (fun line => pyRstripWs ((" * ").data ++ line)),
      pyRstripWs ((" * ").data ++ l),
      post.map (fun line => pyRstripWs ((" * ").data ++ line)) ++ [' ' :: e], ?_, ?_, ?_⟩
    · simp [noticeLines, he, hsplit, List.map_append]
    · simp only [List.length_cons, List.length_map]; omega
    · exact pyRstripWs_marker _ (strContains_append_left (" * ").data l markerStr hl)

/-- Claim C1, counterexample: with the notice text `"Hello"` (which does not
contain the literal `"Copyright (c)"`), running the insertion twice on an
empty `.py` file duplicates the notice instead of leaving the file as after
one run, so the claim's unconditional idempotence is false. -/
theorem claim_C1_counterexample :
    prependFinal (("a.py").data) (("Hello").data)
        (prependFinal (("a.py").data) (("Hello").data) []) ≠
      prependFinal (("a.py").data) (("Hello").data) [] := by decide

/-- Claim C1 (amended): running the insertion twice yields the same content as
running it once, provided the notice text contains the literal
`"Copyright (c)"` in one of its first 18 lines — then the second run finds the
marker within the first 20 lines of the rewritten file and skips without
modifying it.  (Without that proviso the guard can miss, see the
counterexample.) -/
theorem claim_C1_idempotent (p ct c : Str)
    (h : ∃ pre l post, pySplitChar '\n' (pyStrip ct) = pre ++ l :: post ∧
         pre.length < 18 ∧ strContains l markerStr = true) :
    prependFinal p ct (prependFinal p ct c) = prependFinal p ct c := by
  obtain ⟨pre, l, post, hsplit, hlen, hl⟩ := h
  cases hlk : COMMENT_MAP.lookup (effectiveExtension p) with
  | none =>
    have hskip : prependFinal p ct c = c :=
      prependFinal_skip p ct c (fun out hco => by
        rw [prepend_noStyle p ct c hlk] at hco
        exact PrependResult.noConfusion hco)
    rw [hskip]
    exact hskip
  | some se =>
    obtain ⟨s, e⟩ := se
    cases hg : hasNoticeIn20 (pyReadlines c) with
    | true =>
      have hskip : prependFinal p ct c = c :=
        prependFinal_skip p ct c (fun out hco => by
          rw [prepend_dup p ct c s e hlk hg] at hco
          exact PrependResult.noConfusion hco)
      rw [hskip]
      exact hskip
    | false =>
      obtain ⟨A, lm, B, hnot, hA, hlm⟩ := notice_decomp s e ct pre post l hsplit hlen hl
      have hnn : ∀ m ∈ A ++ lm :: B, '\n' ∉ m := by
        rw [← hnot]
        obtain ⟨h1, h2⟩ := commentMap_noNl _ s e hlk
        exact noticeLines_noNl s e ct h1 h2
      have hflshape : firstLinePart (effectiveExtension p) (pyReadlines c) = [] ∨
          (∃ m, '\n' ∉ m ∧
            firstLinePart (effectiveExtension p) (pyReadlines c) = m ++ ['\n']) ∨
          ('\n' ∉ firstLinePart (effectiveExtension p) (pyReadlines c) ∧
            (if (remainderLines (effectiveExtension p) (pyReadlines c)).isEmpty
             then ([] : Str)
             else '\n' ::
               (remainderLines (effectiveExtension p) (pyReadlines c)).flatten) = []) := by
        rcases firstLinePart_shape (effectiveExtension p) c with h1 | h2 | ⟨h3, h4⟩
        · exact Or.inl h1
        · exact Or.inr (Or.inl h2)
        · refine Or.inr (Or.inr ⟨h3, ?_⟩)
          rw [h4]
          rfl
      have hguard2 : hasNoticeIn20 (pyReadlines (prependFinal p ct c)) = true := by
        rw [prependFinal_written p ct c s e hlk hg, formattedNotice_flatten, hnot]
        exact guard_hits _ A B lm _ hnn hA hlm hflshape
      exact prependFinal_skip p ct (prependFinal p ct c) (fun out hco => by
        rw [prepend_dup p ct (prependFinal p ct c) s e hlk hguard2] at hco
        exact PrependResult.noConfusion hco)

/-- Witness for the amended Claim C1 at a concrete input. -/
theorem claim_C1_witness :
    prependFinal (("a.py").data) (("Copyright (c) 2024").data)
        (prependFinal (("a.py").data) (("Copyright (c) 2024").data) (("x\n").data)) =
      prependFinal (("a.py").data) (("Copyright (c) 2024").data) (("x\n").data) :=
  claim_C1_idempotent _ _ _
    ⟨[], ("Copyright (c) 2024").data, [], by decide, by decide, by decide⟩

/-- Claim C6: for every notice text and every extension having a style in the
table, inserting into an empty file produces exactly the notice described by
the specification: with a non-empty end marker, a start-marker line, the
`" * "`-prefixed right-stripped body lines, and a closing line carrying the
end marker; with an empty end marker, the body lines each prefixed with the
start marker plus a space, right-stripped.  `specFormattedNotice` is that
description and the theorem identifies the file's resulting lines with it. -/
theorem claim_C6_formatting (p ct s e : Str)
    (hstyle : COMMENT_MAP.lookup (effectiveExtension p) = some (s, e)) :
    pyReadlines (prependFinal p ct []) = (specFormattedNotice s e ct).map addNl := by
  have hspec : specFormattedNotice s e ct = noticeLines s e ct := rfl
  have hguard : hasNoticeIn20 (pyReadlines ([] : Str)) = false := rfl
  have hlines := prependFinal_lines p ct [] s e hstyle hguard (Or.inl rfl)
  rw [hlines, hspec]
  simp [remainderLines, firstLinePart, pyReadlines_nil]

/-- Witness for Claim C6 at a concrete block-comment extension. -/
theorem claim_C6_witness :
    pyReadlines (prependFinal (("a.c").data) (("Hi").data) []) =
      (specFormattedNotice (("/*").data) ((" */").data) (("Hi").data)).map addNl :=
  claim_C6_formatting (("a.c").data) (("Hi").data) _ _ (by decide)

/-- Claim C7: when insertion happens, if some original content remains after
the (possibly removed) special first line, the rewritten file is that special
line (if any), the notice lines, exactly one blank line, then the remaining
original lines verbatim; if nothing remains, the file is just the special
line (if any) followed by the formatted notice, with no blank separator. -/
theorem claim_C7_separator (p ct c s e : Str)
    (hstyle : COMMENT_MAP.lookup (effectiveExtension p) = some (s, e))
    (hguard : hasNoticeIn20 (pyReadlines c) = false) :
    (remainderLines (effectiveExtension p) (pyReadlines c) ≠ [] →
      pyReadlines (prependFinal p ct c) =
        (if firstLinePart (effectiveExtension p) (pyReadlines c) = [] then []
         else [firstLinePart (effectiveExtension p) (pyReadlines c)]) ++
        ((noticeLines s e ct).map addNl ++
         ['\n'] :: remainderLines (effectiveExtension p) (pyReadlines c))) ∧
    (remainderLines (effectiveExtension p) (pyReadlines c) = [] →
      prependFinal p ct c =
        firstLinePart (effectiveExtension p) (pyReadlines c) ++
          formattedNotice s e ct) := by
  constructor
  · intro hrem
    have hfl : firstLinePart (effectiveExtension p) (pyReadlines c) = [] ∨
        (∃ m, '\n' ∉ m ∧
          firstLinePart (effectiveExtension p) (pyReadlines c) = m ++ ['\n']) := by
      rcases firstLinePart_shape (effectiveExtension p) c with h1 | h2 | ⟨_, h4⟩
      · exact Or.inl h1
      · exact Or.inr h2
      · exact absurd h4 hrem
    rw [prependFinal_lines p ct c s e hstyle hguard hfl]
    rw [if_neg (show ¬((remainderLines (effectiveExtension p) (pyReadlines c)).isEmpty
        = true) from by simpa [List.isEmpty_iff] using hrem)]
    rw [pyReadlines_sep _ (remainder_wf (effectiveExtension p) c)]
  · intro hrem
    rw [prependFinal_written p ct c s e hstyle hguard, hrem]
    simp

/-- Witness for Claim C7 at a concrete input with remaining content. -/
theorem claim_C7_witness :
    pyReadlines (prependFinal (("a.py").data) (("T").data) (("x\n").data)) =
      (if firstLinePart (effectiveExtension (("a.py").data))
            (pyReadlines (("x\n").data)) = [] then []
       else [firstLinePart (effectiveExtension (("a.py").data))
            (pyReadlines (("x\n").data))]) ++
      ((noticeLines (("#").data) [] (("T").data)).map addNl ++
       ['\n'] :: remainderLines (effectiveExtension (("a.py").data))
         (pyReadlines (("x\n").data))) :=
  (claim_C7_separator (("a.py").data) (("T").data) (("x\n").data) (("#").data) []
    (by decide) (by decide)).1 (by decide)

/-- Claim C8, counterexample: a `.py` file whose content is exactly `"#!x"`
with no trailing newline starts with the shebang marker, yet after insertion
the rewritten file's first line is the shebang merged with the first notice
line, not the original shebang line: the rewrite concatenates the preserved
first line and the notice without adding a newline. -/
theorem claim_C8_counterexample :
    pyReadlines (("#!x").data) = [("#!x").data] ∧
    pyStartswith (("#!x").data) (("#!").data) = true ∧
    prependFinal (("a.py").data) (("T").data) (("#!x").data) = ("#!x# T\n").data ∧
    (pyReadlines (prependFinal (("a.py").data) (("T").data) (("#!x").data))).head? ≠
      some (("#!x").data) ∧
    (pyReadlines (prependFinal (("a.py").data) (("T").data) (("#!x").data))).head? ≠
      some (("#!x\n").data) := by decide

/-- Claim C8 (amended): when insertion happens, a special first line (shebang,
PHP open tag, or doctype for html) that ends with a newline stays the first
line of the file and the formatted notice starts on the next line; when there
is no special first line the notice starts at line 1.  (A special first line
lacking its trailing newline is instead merged with the first notice line,
see the counterexample.) -/
theorem claim_C8_special_first (p ct c s e : Str)
    (hstyle : COMMENT_MAP.lookup (effectiveExtension p) = some (s, e))
    (hguard : hasNoticeIn20 (pyReadlines c) = false) :
    (∀ l1 rest, pyReadlines c = l1 :: rest →
      isSpecialFirst (effectiveExtension p) l1 = true →
      l1.getLast? = some '\n' →
      ∃ tail, pyReadlines (prependFinal p ct c) =
        l1 :: ((noticeLines s e ct).map addNl ++ tail)) ∧
    (firstLinePart (effectiveExtension p) (pyReadlines c) = [] →
      ∃ tail, pyReadlines (prependFinal p ct c) =
        (noticeLines s e ct).map addNl ++ tail) := by
  constructor
  · intro l1 rest hlines hsp hlast
    have hwf := wf_pyReadlines c
    rw [hlines] at hwf
    have hproper : ∃ m, '\n' ∉ m ∧ l1 = m ++ ['\n'] := by
      rcases WfLines_cons_cases l1 rest hwf with ⟨⟨hnl, _⟩, _⟩ | ⟨m, hm, heq, _⟩
      · exact absurd (List.mem_of_mem_getLast? (Option.mem_def.mpr hlast)) hnl
      · exact ⟨m, hm, heq⟩
    obtain ⟨m, hm, heq⟩ := hproper
    have hflval : firstLinePart (effectiveExtension p) (pyReadlines c) = l1 := by
      rw [hlines]
      simp [firstLinePart, hsp]
    have hfl : firstLinePart (effectiveExtension p) (pyReadlines c) = [] ∨
        (∃ m', '\n' ∉ m' ∧
          firstLinePart (effectiveExtension p) (pyReadlines c) = m' ++ ['\n']) :=
      Or.inr ⟨m, hm, by rw [hflval, heq]⟩
    refine ⟨pyReadlines
      (if (remainderLines (effectiveExtension p) (pyReadlines c)).isEmpty then []
       else '\n' :: (remainderLines (effectiveExtension p) (pyReadlines c)).flatten), ?_⟩
    rw [prependFinal_lines p ct c s e hstyle hguard hfl, hflval]
    rw [if_neg (show ¬(l1 = []) from by rw [heq]; simp)]
    rfl
  · intro hfl0
    refine ⟨pyReadlines
      (if (remainderLines (effectiveExtension p) (pyReadlines c)).isEmpty then []
       else '\n' :: (remainderLines (effectiveExtension p) (pyReadlines c)).flatten), ?_⟩
    rw [prependFinal_lines p ct c s e hstyle hguard (Or.inl hfl0), hfl0]
    simp

/-- Witness for the amended Claim C8 on a shebang file ending in a newline. -/
theorem claim_C8_witness :
    ∃ tail, pyReadlines (prependFinal (("a.py").data) (("T").data)
        (("#!a\nb\n").data)) =
      ("#!a\n").data :: ((noticeLines (("#").data) [] (("T").data)).map addNl ++ tail) :=
  (claim_C8_special_first (("a.py").data) (("T").data) (("#!a\nb\n").data)
      (("#").data) [] (by decide) (by decide)).1
    (("#!a\n").data) [("b\n").data] (by decide) (by decide) (by decide)

/-- Claim C10: on either skip branch of the inserter — extension without a
style entry, or the literal `"Copyright (c)"` found in the first 20 lines —
the inserter returns a skip outcome and performs no write, so the file's
content is unchanged. -/
theorem claim_C10_skip_no_write (p ct c : Str)
    (h : COMMENT_MAP.lookup (effectiveExtension p) = none ∨
         hasNoticeIn20 (pyReadlines c) = true) :
    prependFinal p ct c = c ∧
    (prepend_copyright p ct COMMENT_MAP c = PrependResult.skipNoStyle ∨
     prepend_copyright p ct COMMENT_MAP c = PrependResult.skipExisting) := by
  rcases h with h | h
  · exact ⟨prependFinal_skip p ct c (fun out hco => by
      rw [prepend_noStyle p ct c h] at hco
      exact PrependResult.noConfusion hco), Or.inl (prepend_noStyle p ct c h)⟩
  · cases hlk : COMMENT_MAP.lookup (effectiveExtension p) with
    | none =>
      exact ⟨prependFinal_skip p ct c (fun out hco => by
        rw [prepend_noStyle p ct c hlk] at hco
        exact PrependResult.noConfusion hco), Or.inl (prepend_noStyle p ct c hlk)⟩
    | some se =>
      obtain ⟨s, e⟩ := se
      exact ⟨prependFinal_skip p ct c (fun out hco => by
        rw [prepend_dup p ct c s e hlk h] at hco
        exact PrependResult.noConfusion hco), Or.inr (prepend_dup p ct c s e hlk h)⟩

/-- Witness for Claim C10: a `.md` file has no style entry and stays intact. -/
theorem claim_C10_witness :
    prependFinal (("a.md").data) (("T").data) (("x\n").data) = ("x\n").data ∧
    (prepend_copyright (("a.md").data) (("T").data) COMMENT_MAP (("x\n").data) =
       PrependResult.skipNoStyle ∨
     prepend_copyright (("a.md").data) (("T").data) COMMENT_MAP (("x\n").data) =
       PrependResult.skipExisting) :=
  claim_C10_skip_no_write _ _ _ (Or.inl (by decide))

/-- Claim C9: a candidate whose per-file I/O fails yields a caught error value
(the inserter's catch-all), and the batch still covers every candidate: the
results of the other candidates are exactly what they would be anyway, and the
batch always produces one result per candidate. -/
theorem claim_C9_batch_isolation (ct nm e : Str) (xs ys : List (Str × Except Str Str)) :
    (∀ fs : List (Str × Except Str Str), (processAll ct fs).length = fs.length) ∧
    processAll ct (xs ++ (nm, Except.error e) :: ys) =
      processAll ct xs ++ PrependResult.errorCaught e :: processAll ct ys := by
  constructor
  · intro fs
    simp [processAll]
  · simp [processAll, prependAttempt]

/-- Claim C5: when the root path does not resolve to an existing directory,
the scanner returns the empty list, whatever the extensions string and the
excluded-directory set. -/
theorem claim_C5_invalid_root (root : Option FSTree) (extensions_str : Str)
    (excluded_dirs : List Str)
    (h : ∀ n cs, root ≠ some (FSTree.dir n cs)) :
    find_files_by_extensions root extensions_str excluded_dirs = [] := by
  cases root with
  | none => rfl
  | some t =>
    cases t with
    | file n c => rfl
    | dir n cs => exact absurd rfl (h n cs)

/-- Witness for Claim C5: the root resolves to a plain file. -/
theorem claim_C5_witness :
    find_files_by_extensions (some (FSTree.file (("a.py").data) []))
      (("py").data) [] = [] :=
  claim_C5_invalid_root _ _ _ (by intro n cs hco; simp at hco)

theorem runMain_unsupported (root : Option FSTree) (extensions_str excluded_str : Str)
    (copyrightRead : Except Str Str) (ext : Str)
    (hmem : ext ∈ parseExtensions extensions_str)
    (hbad : ext ∉ SUPPORTED_EXTENSIONS) :
    runMain root extensions_str excluded_str copyrightRead =
      ⟨MainOutcome.exitUnsupported, []⟩ := by
  have hne : (parseExtensions extensions_str).filter
      (fun e => !SUPPORTED_EXTENSIONS.contains e) ≠ [] := by
    apply List.ne_nil_of_mem (a := ext)
    exact List.mem_filter.mpr ⟨hmem, by simpa using hbad⟩
  have hcond : (!(((parseExtensions extensions_str).filter
      (fun e => !SUPPORTED_EXTENSIONS.contains e)).isEmpty)) = true := by
    simpa [List.isEmpty_iff] using hne
  simp [runMain, hcond]
  intro hall
  exact absurd (hall ext hmem) hbad

/-- Claim C3: if any requested extension is outside the supported set, the run
exits as unsupported and performs no file write — for every root, every
excluded set and every notice-file read result, so nothing in the tree is
read or changed before the validation aborts. -/
theorem claim_C3_validation (root : Option FSTree) (extensions_str excluded_str : Str)
    (copyrightRead : Except Str Str) (ext : Str)
    (hmem : ext ∈ parseExtensions extensions_str)
    (hbad : ext ∉ SUPPORTED_EXTENSIONS) :
    runMain root extensions_str excluded_str copyrightRead =
      ⟨MainOutcome.exitUnsupported, []⟩ :=
  runMain_unsupported root extensions_str excluded_str copyrightRead ext hmem hbad

/-- Witness for Claim C3: requesting `py,exe` aborts the run. -/
theorem claim_C3_witness :
    runMain none (("py,exe").data) (("").data) (Except.ok (("T").data)) =
      ⟨MainOutcome.exitUnsupported, []⟩ :=
  claim_C3_validation _ _ _ _ (("exe").data) (by decide) (by decide)

/-- Structural induction over a forest (recursing into subforests). -/
def forestRec (motive : FSForest → Prop)
    (hnil : motive FSForest.nil)
    (hfile : ∀ n c rest, motive rest → motive (FSForest.cons (FSTree.file n c) rest))
    (hdir : ∀ d cs rest, motive cs → motive rest →
      motive (FSForest.cons (FSTree.dir d cs) rest)) :
    ∀ f, motive f
  | FSForest.nil => hnil
  | FSForest.cons (FSTree.file n c) rest =>
    hfile n c rest (forestRec motive hnil hfile hdir rest)
  | FSForest.cons (FSTree.dir d cs) rest =>
    hdir d cs rest (forestRec motive hnil hfile hdir cs)
      (forestRec motive hnil hfile hdir rest)

theorem filesOf_shape (exts : List Str) (f : FSForest) :
    ∀ q ∈ filesOf exts f, ∃ n cnt, q = ([n], cnt) := by
  refine forestRec (fun f => ∀ q ∈ filesOf exts f, ∃ n cnt, q = ([n], cnt)) ?_ ?_ ?_ f
  · intro q hq
    simp [filesOf] at hq
  · intro n c rest ih q hq
    simp only [filesOf] at hq
    rcases List.mem_append.mp hq with h1 | h2
    · by_cases hmt : matchingName exts n
      · rw [if_pos hmt] at h1
        exact ⟨n, c, List.mem_singleton.mp h1⟩
      · rw [if_neg hmt] at h1
        exact absurd h1 (List.not_mem_nil q)
    · exact ih q h2
  · intro d cs rest _ ih q hq
    simp only [filesOf] at hq
    exact ih q hq

theorem dirEntriesOf_sound (exts excl : List Str) (f : FSForest) :
    ∀ q ∈ dirEntriesOf exts excl f, q.1 ≠ [] ∧ ∀ d ∈ q.1.dropLast, d ∉ excl := by
  refine forestRec (fun f => ∀ q ∈ dirEntriesOf exts excl f,
    q.1 ≠ [] ∧ ∀ d ∈ q.1.dropLast, d ∉ excl) ?_ ?_ ?_ f
  · intro q hq
    simp [dirEntriesOf] at hq
  · intro n c rest ih q hq
    simp only [dirEntriesOf] at hq
    exact ih q hq
  · intro d cs rest ihcs ihrest q hq
    simp only [dirEntriesOf] at hq
    rcases List.mem_append.mp hq with h1 | h2
    · by_cases hex : excl.contains d
      · rw [if_pos hex] at h1
        exact absurd h1 (List.not_mem_nil q)
      · rw [if_neg hex] at h1
        rcases List.mem_map.mp h1 with ⟨q0, hq0, rfl⟩
        have hdnot : d ∉ excl := fun hmem => hex (by simpa using hmem)
        refine ⟨by simp, ?_⟩
        rcases List.mem_append.mp hq0 with hf | hd
        · obtain ⟨n0, c0, rfl⟩ := filesOf_shape exts cs q0 hf
          intro x hx
          simp at hx
          rw [hx]
          exact hdnot
        · obtain ⟨hne, hall⟩ := ihcs q0 hd
          obtain ⟨y, ys, hys⟩ := List.exists_cons_of_ne_nil hne
          intro x hx
          rw [hys] at hx
          simp only [List.dropLast_cons₂] at hx
          rcases List.mem_cons.mp hx with rfl | hx2
          · exact hdnot
          · exact hall x (by rw [hys]; simpa using hx2)
    · exact ihrest q h2

/-- Claim C4: for every root, requested-extension string and excluded set, a
path returned by the scanner never passes through a directory whose name is
excluded: every component of the returned path except the final filename is
not an excluded name (paths are component lists relative to the root, so this
covers every depth strictly below the root). -/
theorem claim_C4_exclusion (root : Option FSTree) (extensions_str : Str)
    (excluded_dirs : List Str) (path : List Str)
    (h : path ∈ find_files_by_extensions root extensions_str excluded_dirs) :
    ∀ d ∈ path.dropLast, d ∉ excluded_dirs := by
  unfold find_files_by_extensions findEntries at h
  cases root with
  | none => exact absurd h (List.not_mem_nil path)
  | some t =>
    cases t with
    | file n c => exact absurd h (List.not_mem_nil path)
    | dir n cs =>
      rcases List.mem_map.mp h with ⟨q, hq, rfl⟩
      rcases List.mem_append.mp hq with h1 | h2
      · obtain ⟨n0, c0, rfl⟩ := filesOf_shape _ cs q h1
        intro x hx
        simp at hx
      · exact (dirEntriesOf_sound _ excluded_dirs cs q h2).2

/-- Witness for Claim C4 on a concrete tree with an excluded `venv` subtree:
the directory component of the single returned path is not the excluded
name. -/
theorem claim_C4_witness :
    ("src").data ∉ ([("venv").data] : List Str) :=
  claim_C4_exclusion
    (some (FSTree.dir (("r").data)
      (FSForest.cons (FSTree.dir (("venv").data)
          (FSForest.cons (FSTree.file (("b.py").data) []) FSForest.nil))
        (FSForest.cons (FSTree.dir (("src").data)
          (FSForest.cons (FSTree.file (("a.py").data) []) FSForest.nil))
          FSForest.nil))))
    (("py").data) [("venv").data] [("src").data, ("a.py").data] (by decide)
    (("src").data) (by decide)

/-- Does the forest contain, among its immediate entries, a file of this name
and content? -/
def forestHasFile (n cnt : Str) : FSForest → Bool
  | FSForest.nil => false
  | FSForest.cons (FSTree.file n2 c2) rest =>
    (n2 == n && c2 == cnt) || forestHasFile n cnt rest
  | FSForest.cons (FSTree.dir _ _) rest => forestHasFile n cnt rest

theorem filesOf_mem (exts : List Str) (n cnt : Str) (f : FSForest)
    (hmem : forestHasFile n cnt f = true) (hmt : matchingName exts n = true) :
    ([n], cnt) ∈ filesOf exts f := by
  refine forestRec
    (fun f => forestHasFile n cnt f = true → ([n], cnt) ∈ filesOf exts f)
    ?_ ?_ ?_ f hmem
  · intro h
    simp [forestHasFile] at h
  · intro n2 c2 rest ih h
    simp only [forestHasFile, Bool.or_eq_true, Bool.and_eq_true, beq_iff_eq] at h
    simp only [filesOf]
    rcases h with ⟨rfl, rfl⟩ | h2
    · rw [if_pos hmt]
      exact List.mem_append_left _ (List.mem_singleton.mpr rfl)
    · exact List.mem_append_right _ (ih h2)
  · intro d cs rest _ ih h
    simp only [forestHasFile] at h
    simp only [filesOf]
    exact ih h

/-- Claim C2, counterexample: requesting the extension keyword `dockerfile`
makes the whole run exit as unsupported — it is not accepted — even when the
tree holds a `Dockerfile` and the notice file reads fine. -/
theorem claim_C2_counterexample :
    runMain (some (FSTree.dir (("r").data)
        (FSForest.cons (FSTree.file (("Dockerfile").data) []) FSForest.nil)))
      (("dockerfile").data) (("").data) (Except.ok (("Copyright (c) X").data)) =
    ⟨MainOutcome.exitUnsupported, []⟩ := by decide

/-- Claim C2 (amended): a requested extension list containing the keyword
`dockerfile` is rejected by the run's validation as unsupported (the run exits
with no file touched), since `dockerfile` is not in `SUPPORTED_EXTENSIONS`;
the scanner itself, invoked directly with such a list, does match files
literally named `Dockerfile`; and the inserter skips every file with basename
`Dockerfile` with a warning, because the style table has no entry for
`dockerfile`. -/
theorem claim_C2_dockerfile (extensions_str : Str)
    (hext : ("dockerfile").data ∈ parseExtensions extensions_str) :
    (∀ root excluded_str copyrightRead,
      runMain root extensions_str excluded_str copyrightRead =
        ⟨MainOutcome.exitUnsupported, []⟩) ∧
    (∀ rootName f cnt excluded,
      forestHasFile (("Dockerfile").data) cnt f = true →
      [("Dockerfile").data] ∈ find_files_by_extensions
        (some (FSTree.dir rootName f)) extensions_str excluded) ∧
    (∀ p ct c, pyBasename p = ("Dockerfile").data →
      prepend_copyright p ct COMMENT_MAP c = PrependResult.skipNoStyle) := by
  refine ⟨?_, ?_, ?_⟩
  · intro root excluded_str copyrightRead
    exact runMain_unsupported root extensions_str excluded_str copyrightRead
      (("dockerfile").data) hext (by decide)
  · intro rootName f cnt excluded hhas
    have hmt : matchingName (parseExtensions extensions_str)
        (("Dockerfile").data) = true := by
      simp [matchingName]
      exact Or.inl hext
    unfold find_files_by_extensions findEntries
    exact List.mem_map.mpr ⟨(([("Dockerfile").data]), cnt),
      List.mem_append_left _ (filesOf_mem _ _ cnt f hhas hmt), rfl⟩
  · intro p ct c hbase
    apply prepend_noStyle
    rw [effectiveExtension, if_pos hbase]
    decide

/-- Witness for the amended Claim C2 with the list `"dockerfile"` itself. -/
theorem claim_C2_witness :
    runMain none (("dockerfile").data) (("").data) (Except.ok []) =
      ⟨MainOutcome.exitUnsupported, []⟩ ∧
    prepend_copyright (("src/Dockerfile").data) (("T").data) COMMENT_MAP [] =
      PrependResult.skipNoStyle :=
  ⟨(claim_C2_dockerfile (("dockerfile").data) (by decide)).1 none _ _,
   (claim_C2_dockerfile (("dockerfile").data) (by decide)).2.2 _ _ _ (by decide)⟩
